import Mathlib

/-!
Shallow embedding of the KeyVal in-memory key-value store
(src/value.rs, src/store.rs, src/command.rs) and proofs about it.

Modelling conventions:
* `Instant` is a natural-number clock value; every operation that calls
  `Instant::now()` in the source takes an explicit `now : Nat` argument.
  `duration_since` of two instants is natural subtraction.
* Rust's `HashMap<String, _>` fields of `Store` are modelled extensionally
  as functions `String → Option _`; `insert`/`remove` are pointwise updates.
* `VecDeque<String>` is `List String`; the `HashMap<String,String>` inside
  a `Value::Hash` is an association list with unique keys (Rust's iteration
  order is arbitrary, the model fixes insertion order).
* `i64` values are `Int`; parsing checks the signed 64-bit range like
  `str::parse::<i64>`, and additions wrap like release-mode `i64` addition.
-/

/-- The tagged union of stored values (src/value.rs, `enum Value`).
Constructors correspond to `Value::String`, `Value::List`, `Value::Hash`
and `Value::Set` (renamed to avoid clashing with core Lean types). -/
inductive Value where
  | str : String → Value
  | list : List String → Value
  | hash : List (String × String) → Value
  | set : List String → Value
deriving DecidableEq, Repr

/-- `Value::len` (src/value.rs): character/element count of the active
variant. Rust counts bytes for `String`; the model counts characters,
which agrees on ASCII data. -/
def Value.len : Value → Nat
  | .str s => s.length
  | .list l => l.length
  | .hash h => h.length
  | .set l => l.length

/-- `Value::is_string` (src/value.rs). -/
def Value.isString : Value → Bool
  | .str _ => true
  | _ => false

/-- Pointwise insert into an extensional map, modelling `HashMap::insert`. -/
def mapInsert (m : String → Option α) (k : String) (v : α) : String → Option α :=
  fun j => if j = k then some v else m j

/-- Pointwise removal from an extensional map, modelling `HashMap::remove`. -/
def mapRemove (m : String → Option α) (k : String) : String → Option α :=
  fun j => if j = k then none else m j

/-- The store state (src/store.rs, `struct Store`): a value map and a
sparse expiration map. -/
structure Store where
  data : String → Option Value
  expiry : String → Option Nat

/-- `Store::new` (src/store.rs). -/
def Store.empty : Store :=
  { data := fun _ => none, expiry := fun _ => none }

/-- `Store::set` (src/store.rs): unconditional overwrite, clearing any
expiration for the key. -/
def Store.set (s : Store) (k : String) (v : Value) : Store :=
  { data := mapInsert s.data k v, expiry := mapRemove s.expiry k }

/-- `Store::get` (src/store.rs): lazily purges the key when its expiration
instant is strictly in the past, then reads the value map. Returns the
result together with the possibly-updated store. -/
def Store.get (s : Store) (now : Nat) (k : String) : Option Value × Store :=
  match s.expiry k with
  | some t =>
    if now > t then
      (none, { data := mapRemove s.data k, expiry := mapRemove s.expiry k })
    else
      (s.data k, s)
  | none => (s.data k, s)

/-- `Store::del` (src/store.rs): removes value and expiration; the returned
Bool is whether the value map contained the key. -/
def Store.del (s : Store) (k : String) : Bool × Store :=
  ((s.data k).isSome,
   { data := mapRemove s.data k, expiry := mapRemove s.expiry k })

/-- `Store::expire` (src/store.rs): sets expiration to `now + duration`
only when the value map contains the key. -/
def Store.expire (s : Store) (now : Nat) (k : String) (duration : Nat) : Bool × Store :=
  if (s.data k).isSome then
    (true, { s with expiry := mapInsert s.expiry k (now + duration) })
  else
    (false, s)

/-- `Store::ttl` (src/store.rs): remaining time while the expiration is
strictly in the future; on an already-passed expiration it purges the key
and returns `-1`; otherwise `-1` for a live key and `-2` for a missing one. -/
def Store.ttl (s : Store) (now : Nat) (k : String) : Option Int × Store :=
  match s.expiry k with
  | some t =>
    if now < t then
      (some (Int.ofNat (t - now)), s)
    else
      (some (-1), { data := mapRemove s.data k, expiry := mapRemove s.expiry k })
  | none =>
    if (s.data k).isSome then (some (-1), s) else (some (-2), s)

/-- Decimal rendering of an `Int`, as Rust's `Display` for `i64` produces. -/
def intStr (i : Int) : String :=
  if i < 0 then "-" ++ toString i.natAbs else toString i.toNat

/-- Numeric value of a decimal digit, `none` on a non-digit
(models the per-character step of `str::parse::<i64>`). -/
def digitVal (c : Char) : Option Nat :=
  if '0' ≤ c ∧ c ≤ '9' then some (c.toNat - '0'.toNat) else none

/-- Accumulating decimal parse of a digit string; fails on any non-digit. -/
def parseNatDigits : List Char → Nat → Option Nat
  | [], acc => some acc
  | c :: cs, acc =>
    match digitVal c with
    | some d => parseNatDigits cs (acc * 10 + d)
    | none => none

/-- `str::parse::<i64>`: optional single `+`/`-` sign, at least one digit,
no other characters, result within the signed 64-bit range. -/
def parseI64 (s : String) : Option Int :=
  let step : Int × List Char → Option Int := fun p =>
    match p.2 with
    | [] => none
    | cs =>
      match parseNatDigits cs 0 with
      | some n =>
        let v : Int := p.1 * Int.ofNat n
        if -(2 ^ 63) ≤ v ∧ v < 2 ^ 63 then some v else none
      | none => none
  match s.data with
  | '+' :: rest => step (1, rest)
  | '-' :: rest => step (-1, rest)
  | rest => step (1, rest)

/-- Two's-complement wrap-around into the signed 64-bit range, the
release-mode behaviour of `i64` addition. -/
def wrapI64 (x : Int) : Int :=
  (x + 2 ^ 63) % 2 ^ 64 - 2 ^ 63

/-- `Store::incr_by` (src/store.rs): reads the key through `get` (the `?`
propagates absence), requires a `Value::String` that parses as `i64`, then
stores the incremented value back as text. -/
def Store.incrBy (s : Store) (now : Nat) (k : String) (d : Int) : Option Int × Store :=
  match s.get now k with
  | (none, s1) => (none, s1)
  | (some cur, s1) =>
    match cur with
    | .str c =>
      match parseI64 c with
      | some n =>
        let newValue := wrapI64 (n + d)
        (some newValue, s1.set k (.str (intStr newValue)))
      | none => (none, s1)
    | _ => (none, s1)

/-- `Store::lpush` (src/store.rs): pushes each argument to the front in
argument order (so arguments end up reversed at the head), auto-creating
an empty list when the key is absent or holds another variant; stores the
list back through `set` and returns the resulting length. -/
def Store.lpush (s : Store) (now : Nat) (k : String) (vs : List String) : Nat × Store :=
  let (cur, s1) := s.get now k
  let l := match cur with
    | some (Value.list l) => l
    | _ => []
  let l1 := vs.foldl (fun acc v => v :: acc) l
  (l1.length, s1.set k (.list l1))

/-- `Store::rpush` (src/store.rs): appends each argument at the back,
auto-creating as `lpush` does. -/
def Store.rpush (s : Store) (now : Nat) (k : String) (vs : List String) : Nat × Store :=
  let (cur, s1) := s.get now k
  let l := match cur with
    | some (Value.list l) => l
    | _ => []
  let l1 := l ++ vs
  (l1.length, s1.set k (.list l1))

/-- `Store::lpop` (src/store.rs): pops the front element when the key holds
a list; the (possibly empty) remainder is always stored back through `set`. -/
def Store.lpop (s : Store) (now : Nat) (k : String) : Option String × Store :=
  match s.get now k with
  | (some (Value.list l), s1) => (l.head?, s1.set k (.list l.tail))
  | (_, s1) => (none, s1)

/-- `Store::rpop` (src/store.rs): pops the back element when the key holds
a list; the remainder is always stored back through `set`. -/
def Store.rpop (s : Store) (now : Nat) (k : String) : Option String × Store :=
  match s.get now k with
  | (some (Value.list l), s1) => (l.getLast?, s1.set k (.list l.dropLast))
  | (_, s1) => (none, s1)

/-- `Store::llen` (src/store.rs). -/
def Store.llen (s : Store) (now : Nat) (k : String) : Option Nat × Store :=
  match s.get now k with
  | (some (Value.list l), s1) => (some l.length, s1)
  | (_, s1) => (none, s1)

/-- `Store::lindex` (src/store.rs): in-bounds read, no mutation. -/
def Store.lindex (s : Store) (now : Nat) (k : String) (index : Nat) : Option String × Store :=
  match s.get now k with
  | (some (Value.list l), s1) =>
    if h : index < l.length then (some (l.get ⟨index, h⟩), s1) else (none, s1)
  | (_, s1) => (none, s1)

/-- `Store::lset` (src/store.rs): in-bounds overwrite, stored back
through `set`. -/
def Store.lset (s : Store) (now : Nat) (k : String) (index : Nat) (v : String) : Bool × Store :=
  match s.get now k with
  | (some (Value.list l), s1) =>
    if index < l.length then (true, s1.set k (.list (l.set index v)))
    else (false, s1)
  | (_, s1) => (false, s1)

/-- `Store::lrange` (src/store.rs): returns the inclusive slice
`[start, stop]` only when `start < stop` and both indices are strictly
within bounds (`stop` is the source's `end`, a Lean keyword). -/
def Store.lrange (s : Store) (now : Nat) (k : String) (start stop : Nat) :
    Option (List String) × Store :=
  match s.get now k with
  | (some (Value.list l), s1) =>
    if start < stop ∧ start < l.length ∧ stop < l.length then
      (some ((l.drop start).take (stop + 1 - start)), s1)
    else (none, s1)
  | (_, s1) => (none, s1)

/-- Removal of the first occurrence of `v`, `none` when `v` is absent:
the effect of `list.remove(list.iter().position(..))` in `Store::lrem`. -/
def removeFirstOcc (v : String) : List String → Option (List String)
  | [] => none
  | x :: xs => if x = v then some xs else (removeFirstOcc v xs).map (x :: ·)

/-- Removal of the last occurrence of `v`, `none` when `v` is absent:
the effect of `list.remove(list.iter().rposition(..))` in `Store::lrem`. -/
def removeLastOcc (v : String) : List String → Option (List String)
  | [] => none
  | x :: xs =>
    match removeLastOcc v xs with
    | some xs1 => some (x :: xs1)
    | none => if x = v then some xs else none

/-- The `count > 0` loop of `Store::lrem`: repeatedly remove the first
occurrence until `count` removals happened or none remain; returns the
final list and the number removed. -/
def lremFrontLoop (v : String) : Nat → List String → List String × Nat
  | 0, l => (l, 0)
  | k + 1, l =>
    match removeFirstOcc v l with
    | none => (l, 0)
    | some l1 =>
      let (r, c) := lremFrontLoop v k l1
      (r, c + 1)

/-- The `count < 0` loop of `Store::lrem`: repeatedly remove the last
occurrence until `|count|` removals happened or none remain. -/
def lremBackLoop (v : String) : Nat → List String → List String × Nat
  | 0, l => (l, 0)
  | k + 1, l =>
    match removeLastOcc v l with
    | none => (l, 0)
    | some l1 =>
      let (r, c) := lremBackLoop v k l1
      (r, c + 1)

/-- `Store::lrem` (src/store.rs): three scanning modes selected by the
sign of `count`; the resulting list is always stored back through `set`. -/
def Store.lrem (s : Store) (now : Nat) (k : String) (count : Int) (v : String) : Nat × Store :=
  match s.get now k with
  | (some (Value.list l), s1) =>
    if count > 0 then
      let (l1, c) := lremFrontLoop v count.toNat l
      (c, s1.set k (.list l1))
    else if count < 0 then
      let (l1, c) := lremBackLoop v (-count).toNat l
      (c, s1.set k (.list l1))
    else
      let c := (l.filter (fun x => x = v)).length
      (c, s1.set k (.list (l.filter (fun x => x ≠ v))))
  | (_, s1) => (0, s1)

/-- Association-list lookup, modelling `HashMap::get` on a hash value. -/
def assocGet (h : List (String × String)) (f : String) : Option String :=
  (h.find? (fun p => p.1 = f)).map (·.2)

/-- Association-list insert-or-replace, modelling `HashMap::insert`. -/
def assocInsert : List (String × String) → String → String → List (String × String)
  | [], f, v => [(f, v)]
  | (a, b) :: t, f, v =>
    if a = f then (f, v) :: t else (a, b) :: assocInsert t f v

/-- Association-list removal, modelling `HashMap::remove`. -/
def assocRemove : List (String × String) → String → List (String × String)
  | [], _ => []
  | (a, b) :: t, f => if a = f then t else (a, b) :: assocRemove t f

/-- `Store::hset` (src/store.rs): auto-creates an empty hash when the key
is absent or holds another variant, records whether the field already
existed, inserts, and stores back through `set`. -/
def Store.hset (s : Store) (now : Nat) (k f v : String) : Bool × Store :=
  let (cur, s1) := s.get now k
  let h := match cur with
    | some (Value.hash h) => h
    | _ => []
  let existed := (assocGet h f).isSome
  (existed, s1.set k (.hash (assocInsert h f v)))

/-- `Store::hget` (src/store.rs). -/
def Store.hget (s : Store) (now : Nat) (k f : String) : Option String × Store :=
  match s.get now k with
  | (some (Value.hash h), s1) => (assocGet h f, s1)
  | (_, s1) => (none, s1)

/-- `Store::hdel` (src/store.rs): removes the field and stores the hash
back through `set` whenever the key holds a hash. -/
def Store.hdel (s : Store) (now : Nat) (k f : String) : Bool × Store :=
  match s.get now k with
  | (some (Value.hash h), s1) =>
    ((assocGet h f).isSome, s1.set k (.hash (assocRemove h f)))
  | (_, s1) => (false, s1)

/-- `Store::hlen` (src/store.rs). -/
def Store.hlen (s : Store) (now : Nat) (k : String) : Option Nat × Store :=
  match s.get now k with
  | (some (Value.hash h), s1) => (some h.length, s1)
  | (_, s1) => (none, s1)

/-- `Store::hget_all` (src/store.rs). -/
def Store.hgetAll (s : Store) (now : Nat) (k : String) :
    Option (List (String × String)) × Store :=
  match s.get now k with
  | (some (Value.hash h), s1) => (some h, s1)
  | (_, s1) => (none, s1)

/-- `Store::hincr_by` (src/store.rs): on an existing numeric field adds
and stores back; on a missing field inserts `d` as text and returns it;
fails on a non-numeric field or a non-hash key. -/
def Store.hincrBy (s : Store) (now : Nat) (k f : String) (d : Int) : Option Int × Store :=
  match s.get now k with
  | (some (Value.hash h), s1) =>
    match assocGet h f with
    | some val =>
      match parseI64 val with
      | some n =>
        let newValue := wrapI64 (n + d)
        (some newValue, s1.set k (.hash (assocInsert h f (intStr newValue))))
      | none => (none, s1)
    | none => (some d, s1.set k (.hash (assocInsert h f (intStr d))))
  | (_, s1) => (none, s1)

/-- One escaped character of Rust's `Debug` formatting for `str`
(modelled from the spec / Rust std, which is outside this repository:
the common escapes; other characters render verbatim). -/
def debugEscape (c : Char) : String :=
  if c = '"' then "\\\""
  else if c = '\\' then "\\\\"
  else if c = '\r' then "\\r"
  else if c = '\n' then "\\n"
  else if c = '\t' then "\\t"
  else String.singleton c

/-- Rust's `Debug` rendering of a string: quoted and escaped. -/
def rustDebugStr (s : String) : String :=
  "\"" ++ String.join (s.data.map debugEscape) ++ "\""

/-- The `Display` impl of `Value` (src/value.rs): a `String` displays
verbatim, the container variants use their `Debug` format (modelled
from Rust std: bracketed, comma-separated, elements `Debug`-quoted;
map/set iteration order fixed to the model's list order). -/
def Value.display : Value → String
  | .str s => s
  | .list l => "[" ++ ", ".intercalate (l.map rustDebugStr) ++ "]"
  | .hash h =>
    "\x7b" ++ ", ".intercalate (h.map (fun p => rustDebugStr p.1 ++ ": " ++ rustDebugStr p.2)) ++ "\x7d"
  | .set l => "\x7b" ++ ", ".intercalate (l.map rustDebugStr) ++ "\x7d"

/-- The parsed command variants (src/command.rs, `enum Command`). -/
inductive Command where
  | Ping
  | Quit
  | Set : String → Value → Command
  | Get : String → Command
  | Del : String → Command
  | Expire : String → Nat → Command
  | TTL : String → Command
  | Exists : String → Command
  | Strlen : String → Command
  | IncrBy : String → Int → Command
  | DecrBy : String → Int → Command
  | Incr : String → Command
  | Decr : String → Command
  | LPush : String → List String → Command
  | RPush : String → List String → Command
  | LPop : String → Command
  | RPop : String → Command
  | LRange : String → Nat → Nat → Command
  | LRem : String → Int → String → Command
  | LIndex : String → Nat → Command
  | LSet : String → Nat → String → Command
  | LLen : String → Command

/-- The bulk-string wire encoding of the reply table. -/
def bulkEnc (d : String) : String :=
  "$" ++ toString d.length ++ "\r\n" ++ d ++ "\r\n"

/-- `Command::execute` (src/command.rs): dispatches to the store and
renders the reply string exactly as the source's `format!` calls do,
returning the reply together with the updated store. -/
def Command.execute (c : Command) (s : Store) (now : Nat) : String × Store :=
  match c with
  | .Ping => ("+PONG\r\n", s)
  | .Quit => ("+OK\r\n", s)
  | .Set k v => ("+OK\r\n", s.set k v)
  | .Get k =>
    match s.get now k with
    | (some v, s1) => ("$" ++ toString v.len ++ "\r\n" ++ v.display ++ "\r\n", s1)
    | (none, s1) => ("$-1\r\n", s1)
  | .Del k =>
    let (b, s1) := s.del k
    (":" ++ (if b then "1" else "0") ++ "\r\n", s1)
  | .Expire k t =>
    let (b, s1) := s.expire now k t
    (":" ++ (if b then "1" else "0") ++ "\r\n", s1)
  | .TTL k =>
    match s.ttl now k with
    | (some n, s1) => (":" ++ intStr n ++ "\r\n", s1)
    | (none, s1) => (":" ++ intStr 0 ++ "\r\n", s1)
  | .Exists k =>
    match s.get now k with
    | (some _, s1) => (":1\r\n", s1)
    | (none, s1) => (":0\r\n", s1)
  | .Strlen k =>
    match s.get now k with
    | (some v, s1) => (":" ++ toString v.len ++ "\r\n", s1)
    | (none, s1) => ("$-1\r\n", s1)
  | .IncrBy k d =>
    match s.incrBy now k d with
    | (some v, s1) => (intStr v ++ "\r\n", s1)
    | (none, s1) => ("-ERR value is not an integer or out of range\r\n", s1)
  | .DecrBy k d =>
    match s.incrBy now k (-d) with
    | (some v, s1) => (intStr v ++ "\r\n", s1)
    | (none, s1) => ("-ERR value is not an integer or out of range\r\n", s1)
  | .Incr k =>
    match s.incrBy now k 1 with
    | (some v, s1) => (intStr v ++ "\r\n", s1)
    | (none, s1) => ("-ERR value is not an integer or out of range\r\n", s1)
  | .Decr k =>
    match s.incrBy now k (-1) with
    | (some v, s1) => (intStr v ++ "\r\n", s1)
    | (none, s1) => ("-ERR value is not an integer or out of range\r\n", s1)
  | .LPush k vs =>
    let (n, s1) := s.lpush now k vs
    (toString n ++ "\r\n", s1)
  | .RPush k vs =>
    let (n, s1) := s.rpush now k vs
    (toString n ++ "\r\n", s1)
  | .LPop k =>
    match s.lpop now k with
    | (some v, s1) => (v ++ "\r\n", s1)
    | (none, s1) => ("$-1\r\n", s1)
  | .RPop k =>
    match s.rpop now k with
    | (some v, s1) => (v ++ "\r\n", s1)
    | (none, s1) => ("$-1\r\n", s1)
  | .LRange k a b =>
    match s.lrange now k a b with
    | (some res, s1) =>
      ("*" ++ toString res.length ++ "\r\n" ++ String.join (res.map bulkEnc), s1)
    | (none, s1) => ("-ERR index out of range\r\n", s1)
  | .LRem k count v =>
    let (n, s1) := s.lrem now k count v
    (":" ++ toString n ++ "\r\n", s1)
  | .LIndex k i =>
    match s.lindex now k i with
    | (some v, s1) => (v ++ "\r\n", s1)
    | (none, s1) => ("-ERR index out of range\r\n", s1)
  | .LSet k i v =>
    match s.lset now k i v with
    | (true, s1) => ("+OK\r\n", s1)
    | (false, s1) => ("-ERR index out of range\r\n", s1)
  | .LLen k =>
    match s.llen now k with
    | (some n, s1) => (toString n ++ "\r\n", s1)
    | (none, s1) => ("$-1\r\n", s1)

/-- A reply matching some row of the spec's reply-encoding table. -/
def isTableReply (r : String) : Prop :=
  r = "+OK\r\n" ∨
  r = "+PONG\r\n" ∨
  (∃ m : String, r = "-ERR " ++ m ++ "\r\n") ∨
  (∃ n : Int, r = ":" ++ intStr n ++ "\r\n") ∨
  (∃ d : String, r = bulkEnc d) ∨
  r = "$-1\r\n" ∨
  (∃ items : List String, r = "*" ++ toString items.length ++ "\r\n" ++ String.join (items.map bulkEnc))

/-- The commands whose successful integer replies omit the `:` prefix. -/
def isBareIntCmd : Command → Prop
  | .IncrBy _ _ | .DecrBy _ _ | .Incr _ | .Decr _
  | .LPush _ _ | .RPush _ _ | .LLen _ => True
  | _ => False

/-- The commands whose successful value replies are bare lines instead of
bulk strings. -/
def isBareValCmd : Command → Prop
  | .LPop _ | .RPop _ | .LIndex _ _ => True
  | _ => False

/-- The `GET` command (whose reply for non-text values carries a length
field that is the element count, not the byte length of the payload). -/
def isGetCmd : Command → Prop
  | .Get _ => True
  | _ => False

/-- The store invariant of the spec: every key in the expiration mapping
is also a key in the value mapping. -/
def StoreInv (s : Store) : Prop :=
  ∀ k, (s.expiry k).isSome → (s.data k).isSome

/-- Number of occurrences of `v` in `l`. -/
def countOcc (v : String) (l : List String) : Nat :=
  (l.filter (fun x => x = v)).length

/-- Specification-level removal, following the claim's words: delete the
first `n` occurrences of `v` scanning from the front, fewer when fewer
exist. -/
def specRemoveFirstN (v : String) : Nat → List String → List String
  | 0, l => l
  | _ + 1, [] => []
  | n + 1, x :: xs =>
    if x = v then specRemoveFirstN v n xs else x :: specRemoveFirstN v (n + 1) xs

/-- Specification-level removal of the last `n` occurrences of `v`,
scanning from the back. -/
def specRemoveLastN (v : String) (n : Nat) (l : List String) : List String :=
  (specRemoveFirstN v n l.reverse).reverse

/-- C4: `set(k, v)` followed immediately by `get(k)` returns `v`, at any
time `now` and from any prior store state — in particular regardless of
any expiration that was active on `k` before the `set`, since `set`
removes the key from the expiration map. -/
theorem set_then_get (s : Store) (k : String) (v : Value) (now : Nat) :
    ((s.set k v).get now k).1 = some v := by
  simp [Store.set, Store.get, mapInsert, mapRemove]

/-- Rendering a natural number through `intStr` agrees with `toString`. -/
theorem intStr_ofNat (m : Nat) : intStr (Int.ofNat m) = toString m := by
  have h : ¬ (Int.ofNat m < 0) := not_lt.mpr (Int.ofNat_nonneg m)
  simp [intStr, h]

/-- A live, unexpired key is read by `get` without any state change. -/
theorem get_of_live (s : Store) (now : Nat) (k : String) (v : Value)
    (hd : s.data k = some v) (he : ∀ t, s.expiry k = some t → now ≤ t) :
    s.get now k = (some v, s) := by
  unfold Store.get
  cases h : s.expiry k with
  | none => simp [hd]
  | some t =>
    have := he t h
    have hng : ¬ (now > t) := by omega
    simp [hng, hd]

/-- C1 counterexample: a key whose expiration instant has passed is purged
by the `ttl` call itself, but that call returns `-1`, not `-2` as the
claim states (the data map is cleared by the call, shown alongside). -/
theorem ttl_purge_returns_neg_one :
    ((((Store.empty.set "k" (Value.str "v")).expire 0 "k" 0).2.ttl 1 "k").1
      = some (-1)) ∧
    ((((Store.empty.set "k" (Value.str "v")).expire 0 "k" 0).2.ttl 1 "k").1
      ≠ some (-2)) ∧
    ((((Store.empty.set "k" (Value.str "v")).expire 0 "k" 0).2.ttl 1 "k").2.data "k"
      = none) := by
  refine ⟨?_, ?_, ?_⟩ <;> decide

/-- C1 amended: `ttl` returns `-1` for a live key without expiration, `-2`
for a key absent from both maps, the remaining time while the expiration
is in the future, and `-1` (not `-2`) on the very call that lazily purges
a passed expiration — only a subsequent `ttl` returns `-2`. After
`expire(k, 0)`, a later `get(k)` is absent and `ttl(k)` then returns `-2`. -/
theorem ttl_amended_spec (s : Store) (k : String) (v : Value) (t now now2 : Nat) :
    (s.expiry k = none → s.data k = some v → (s.ttl now k).1 = some (-1)) ∧
    (s.expiry k = none → s.data k = none → (s.ttl now k).1 = some (-2)) ∧
    (s.expiry k = some t → t ≤ now →
      (s.ttl now k).1 = some (-1) ∧ (((s.ttl now k).2).ttl now k).1 = some (-2)) ∧
    (s.expiry k = some t → now < t →
      (s.ttl now k).1 = some (Int.ofNat (t - now))) ∧
    (s.data k = some v → now < now2 →
      (((s.expire now k 0).2).get now2 k).1 = none ∧
      (((((s.expire now k 0).2).get now2 k).2).ttl now2 k).1 = some (-2)) := by
  refine ⟨?_, ?_, ?_, ?_, ?_⟩
  · intro he hd
    simp [Store.ttl, he, hd]
  · intro he hd
    simp [Store.ttl, he, hd]
  · intro he ht
    have hnlt : ¬ (now < t) := by omega
    constructor
    · simp [Store.ttl, he, hnlt]
    · simp [Store.ttl, he, hnlt, mapRemove]
  · intro he ht
    simp [Store.ttl, he, ht]
  · intro hd hlt
    have hs : (s.data k).isSome := by simp [hd]
    constructor
    · simp [Store.expire, hs, Store.get, mapInsert, hlt]
    · simp [Store.expire, hs, Store.get, mapInsert, hlt, Store.ttl, mapRemove]

/-- C1 amended, witnessed at concrete inputs: a live unexpired key, a
missing key, a purge call followed by a second `ttl`, a counting-down
key, and the `expire(k, 0)`/`get`/`ttl` sequence. -/
theorem ttl_amended_spec_witness :
    (((Store.empty.set "k" (Value.str "v")).ttl 3 "k").1 = some (-1)) ∧
    ((Store.empty.ttl 3 "k").1 = some (-2)) ∧
    (let s0 := ((Store.empty.set "k" (Value.str "v")).expire 0 "k" 2).2
     (s0.ttl 5 "k").1 = some (-1) ∧ (((s0.ttl 5 "k").2).ttl 5 "k").1 = some (-2)) ∧
    (let s0 := ((Store.empty.set "k" (Value.str "v")).expire 0 "k" 9).2
     (s0.ttl 5 "k").1 = some (Int.ofNat 4)) ∧
    (let s1 := (Store.empty.set "k" (Value.str "v"))
     ((s1.expire 0 "k" 0).2.get 1 "k").1 = none ∧
     ((((s1.expire 0 "k" 0).2.get 1 "k").2).ttl 1 "k").1 = some (-2)) := by
  refine ⟨?_, ?_, ?_, ?_, ?_⟩
  · exact (ttl_amended_spec (Store.empty.set "k" (Value.str "v")) "k"
      (Value.str "v") 0 3 0).1 (by decide) (by decide)
  · exact (ttl_amended_spec Store.empty "k" (Value.str "v") 0 3 0).2.1
      (by decide) (by decide)
  · exact (ttl_amended_spec ((Store.empty.set "k" (Value.str "v")).expire 0 "k" 2).2
      "k" (Value.str "v") 2 5 0).2.2.1 (by decide) (by decide)
  · exact (ttl_amended_spec ((Store.empty.set "k" (Value.str "v")).expire 0 "k" 9).2
      "k" (Value.str "v") 9 5 0).2.2.2.1 (by decide) (by decide)
  · exact (ttl_amended_spec (Store.empty.set "k" (Value.str "v")) "k"
      (Value.str "v") 0 0 1).2.2.2.2 (by decide) (by decide)

/-- C2 counterexample: `increment` on an absent key does not treat the
missing value as `0` — the `?` on the inner `get` propagates absence, so
the call returns `none` (not `some 5`) and stores nothing. -/
theorem incr_absent_counterexample :
    ((Store.empty.incrBy 0 "k" 5).1 = none) ∧
    ((Store.empty.incrBy 0 "k" 5).1 ≠ some 5) ∧
    (((Store.empty.incrBy 0 "k" 5).2).data "k" = none) := by
  refine ⟨?_, ?_, ?_⟩ <;> decide

/-- C2 amended: for every key that `get` reports absent, `increment(k, d)`
fails (returns absence) and stores nothing under `k`; the only state
effect is the lazy purge already performed by the inner `get`. -/
theorem incr_absent_fails (s : Store) (now : Nat) (k : String) (d : Int)
    (h : (s.get now k).1 = none) :
    (s.incrBy now k d).1 = none ∧ ((s.incrBy now k d).2).data k = none ∧
    (s.incrBy now k d).2 = (s.get now k).2 := by
  have hdata : ((s.get now k).2).data k = none := by
    unfold Store.get at h ⊢
    cases he : s.expiry k with
    | none =>
      simp [he] at h ⊢
      exact h
    | some t =>
      by_cases hgt : now > t
      · simp [he, hgt, mapRemove]
      · simp [he, hgt] at h ⊢
        exact h
  rcases hg : s.get now k with ⟨r, s1⟩
  rw [hg] at h hdata
  simp only at h hdata
  subst h
  simp [Store.incrBy, hg, hdata]

/-- C2 amended, witnessed on the empty store. -/
theorem incr_absent_fails_witness :
    (Store.empty.incrBy 0 "q" 7).1 = none ∧
    ((Store.empty.incrBy 0 "q" 7).2).data "q" = none ∧
    (Store.empty.incrBy 0 "q" 7).2 = (Store.empty.get 0 "q").2 :=
  incr_absent_fails Store.empty 0 "q" 7 (by decide)

/-- C9 counterexample: a key whose expiration instant has passed (so it is
logically absent — `get` returns `none`) is still physically present in
the value map, and `delete` returns `true` for it, contradicting
"returns true iff the key logically existed". -/
theorem del_true_on_expired_key :
    ((((Store.empty.set "k" (Value.str "v")).expire 0 "k" 0).2.get 1 "k").1 = none) ∧
    ((((Store.empty.set "k" (Value.str "v")).expire 0 "k" 0).2.del "k").1 = true) := by
  refine ⟨?_, ?_⟩ <;> decide

/-- C9 amended: `delete(k)` removes value and expiration and returns
whether `k` was present in the value mapping — physical presence, which
may include a key whose expiration instant has already passed but was not
yet purged; a subsequent `get(k)` returns absent. -/
theorem del_amended_spec (s : Store) (k : String) (now : Nat) :
    (s.del k).1 = (s.data k).isSome ∧
    ((s.del k).2).data k = none ∧
    ((s.del k).2).expiry k = none ∧
    (((s.del k).2).get now k).1 = none := by
  refine ⟨rfl, ?_, ?_, ?_⟩ <;> simp [Store.del, Store.get, mapRemove]

/-- C5: on a live, unexpired key holding non-numeric Text or a non-Text
variant, `increment(k, d)` returns absence and the entire store — stored
value and expiration included — is exactly as before the call. -/
theorem incr_fail_no_mutation (s : Store) (now : Nat) (k : String) (d : Int) (v : Value)
    (hd : s.data k = some v)
    (he : ∀ t, s.expiry k = some t → now ≤ t)
    (hv : v.isString = false ∨ ∃ c, v = Value.str c ∧ parseI64 c = none) :
    (s.incrBy now k d).1 = none ∧ (s.incrBy now k d).2 = s := by
  have hg := get_of_live s now k v hd he
  rcases hv with hns | ⟨c, hvc, hp⟩
  · cases v with
    | str c => simp [Value.isString] at hns
    | list l => simp [Store.incrBy, hg]
    | hash h => simp [Store.incrBy, hg]
    | set l => simp [Store.incrBy, hg]
  · subst hvc
    simp [Store.incrBy, hg, hp]

/-- C5, witnessed on a List-valued key and a non-numeric Text key. -/
theorem incr_fail_no_mutation_witness :
    (((Store.empty.set "k" (Value.list ["a"])).incrBy 0 "k" 3).1 = none ∧
     ((Store.empty.set "k" (Value.list ["a"])).incrBy 0 "k" 3).2
       = Store.empty.set "k" (Value.list ["a"])) ∧
    (((Store.empty.set "k" (Value.str "abc")).incrBy 0 "k" 3).1 = none ∧
     ((Store.empty.set "k" (Value.str "abc")).incrBy 0 "k" 3).2
       = Store.empty.set "k" (Value.str "abc")) := by
  constructor
  · exact incr_fail_no_mutation _ 0 "k" 3 (Value.list ["a"]) (by decide)
      (by intro t h; simp [Store.set, Store.empty, mapRemove] at h)
      (Or.inl (by decide))
  · exact incr_fail_no_mutation _ 0 "k" 3 (Value.str "abc") (by decide)
      (by intro t h; simp [Store.set, Store.empty, mapRemove] at h)
      (Or.inr ⟨"abc", rfl, by decide⟩)

/-- C6: on a live, unexpired key holding a List, `lrange(k, start, stop)`
returns the inclusive slice exactly when `start < stop` and both indices
are strictly within bounds, and absence otherwise — so equal bounds
(`start = stop`) and descending bounds are rejected. -/
theorem lrange_characterization (s : Store) (now : Nat) (k : String) (l : List String)
    (a b : Nat)
    (hd : s.data k = some (Value.list l))
    (he : ∀ t, s.expiry k = some t → now ≤ t) :
    (s.lrange now k a b).1 =
      (if a < b ∧ a < l.length ∧ b < l.length
       then some ((l.drop a).take (b + 1 - a)) else none) := by
  have hg := get_of_live s now k _ hd he
  by_cases h : a < b ∧ a < l.length ∧ b < l.length <;>
    simp [Store.lrange, hg, h]

/-- C6, witnessed: a 3-element list accepts `lrange 0 2` and returns the
full slice, while `lrange 2 2` (equal bounds) is rejected. -/
theorem lrange_characterization_witness :
    (((Store.empty.set "k" (Value.list ["a", "b", "c"])).lrange 0 "k" 0 2).1
       = some ["a", "b", "c"]) ∧
    (((Store.empty.set "k" (Value.list ["a", "b", "c"])).lrange 0 "k" 2 2).1
       = none) := by
  have he : ∀ t, (Store.empty.set "k" (Value.list ["a", "b", "c"])).expiry "k"
      = some t → (0 : Nat) ≤ t := by
    intro t h
    simp [Store.set, Store.empty, mapRemove] at h
  constructor
  · rw [lrange_characterization _ 0 "k" ["a", "b", "c"] 0 2 (by decide) he]
    decide
  · rw [lrange_characterization _ 0 "k" ["a", "b", "c"] 2 2 (by decide) he]
    decide

/-- `set` preserves the expiry-subset-of-data invariant. -/
theorem inv_set (s : Store) (k : String) (v : Value) (h : StoreInv s) :
    StoreInv (s.set k v) := by
  intro j hj
  by_cases hjk : j = k
  · simp [Store.set, mapRemove, hjk] at hj
  · simp [Store.set, mapRemove, mapInsert, hjk] at hj ⊢
    exact h j hj

/-- Purging one key from both maps preserves the invariant. -/
theorem inv_purge (s : Store) (k : String) (h : StoreInv s) :
    StoreInv ⟨mapRemove s.data k, mapRemove s.expiry k⟩ := by
  intro j hj
  by_cases hjk : j = k
  · simp [mapRemove, hjk] at hj
  · simp [mapRemove, hjk] at hj ⊢
    exact h j hj

/-- The store returned by `get` satisfies the invariant. -/
theorem inv_get_snd (s : Store) (now : Nat) (k : String) (h : StoreInv s) :
    StoreInv (s.get now k).2 := by
  unfold Store.get
  cases he : s.expiry k with
  | none => exact h
  | some t =>
    by_cases hgt : now > t
    · simpa [hgt] using inv_purge s k h
    · simpa [hgt] using h

/-- The store returned by `del` satisfies the invariant. -/
theorem inv_del_snd (s : Store) (k : String) (h : StoreInv s) :
    StoreInv (s.del k).2 := inv_purge s k h

/-- The store returned by `expire` satisfies the invariant. -/
theorem inv_expire_snd (s : Store) (now : Nat) (k : String) (dur : Nat)
    (h : StoreInv s) : StoreInv (s.expire now k dur).2 := by
  unfold Store.expire
  by_cases hd : (s.data k).isSome
  · simp only [hd, if_true]
    intro j hj
    by_cases hjk : j = k
    · simpa [hjk] using hd
    · simp [mapInsert, hjk] at hj
      exact h j hj
  · simpa [hd] using h

/-- The store returned by `ttl` satisfies the invariant. -/
theorem inv_ttl_snd (s : Store) (now : Nat) (k : String) (h : StoreInv s) :
    StoreInv (s.ttl now k).2 := by
  unfold Store.ttl
  cases he : s.expiry k with
  | none =>
    by_cases hd : (s.data k).isSome <;> simpa [hd] using h
  | some t =>
    by_cases hlt : now < t
    · simpa [hlt] using h
    · simpa [hlt] using inv_purge s k h

/-- The store returned by `incr_by` satisfies the invariant. -/
theorem inv_incrBy_snd (s : Store) (now : Nat) (k : String) (d : Int)
    (h : StoreInv s) : StoreInv (s.incrBy now k d).2 := by
  have h1 : StoreInv (s.get now k).2 := inv_get_snd s now k h
  rcases hg : s.get now k with ⟨r, s1⟩
  rw [hg] at h1
  cases r with
  | none => simpa [Store.incrBy, hg] using h1
  | some v =>
    cases v with
    | str c =>
      cases hp : parseI64 c with
      | none => simpa [Store.incrBy, hg, hp] using h1
      | some n => simpa [Store.incrBy, hg, hp] using inv_set s1 k _ h1
    | list l => simpa [Store.incrBy, hg] using h1
    | hash hh => simpa [Store.incrBy, hg] using h1
    | set l => simpa [Store.incrBy, hg] using h1

/-- The store returned by `lpush` satisfies the invariant. -/
theorem inv_lpush_snd (s : Store) (now : Nat) (k : String) (vs : List String)
    (h : StoreInv s) : StoreInv (s.lpush now k vs).2 := by
  have h1 : StoreInv (s.get now k).2 := inv_get_snd s now k h
  rcases hg : s.get now k with ⟨r, s1⟩
  rw [hg] at h1
  simpa [Store.lpush, hg] using inv_set s1 k _ h1

/-- The store returned by `rpush` satisfies the invariant. -/
theorem inv_rpush_snd (s : Store) (now : Nat) (k : String) (vs : List String)
    (h : StoreInv s) : StoreInv (s.rpush now k vs).2 := by
  have h1 : StoreInv (s.get now k).2 := inv_get_snd s now k h
  rcases hg : s.get now k with ⟨r, s1⟩
  rw [hg] at h1
  simpa [Store.rpush, hg] using inv_set s1 k _ h1

/-- The store returned by `lpop` satisfies the invariant. -/
theorem inv_lpop_snd (s : Store) (now : Nat) (k : String) (h : StoreInv s) :
    StoreInv (s.lpop now k).2 := by
  have h1 : StoreInv (s.get now k).2 := inv_get_snd s now k h
  rcases hg : s.get now k with ⟨r, s1⟩
  rw [hg] at h1
  cases r with
  | none => simpa [Store.lpop, hg] using h1
  | some v =>
    cases v with
    | str c => simpa [Store.lpop, hg] using h1
    | list l => simpa [Store.lpop, hg] using inv_set s1 k _ h1
    | hash hh => simpa [Store.lpop, hg] using h1
    | set l => simpa [Store.lpop, hg] using h1

/-- The store returned by `rpop` satisfies the invariant. -/
theorem inv_rpop_snd (s : Store) (now : Nat) (k : String) (h : StoreInv s) :
    StoreInv (s.rpop now k).2 := by
  have h1 : StoreInv (s.get now k).2 := inv_get_snd s now k h
  rcases hg : s.get now k with ⟨r, s1⟩
  rw [hg] at h1
  cases r with
  | none => simpa [Store.rpop, hg] using h1
  | some v =>
    cases v with
    | str c => simpa [Store.rpop, hg] using h1
    | list l => simpa [Store.rpop, hg] using inv_set s1 k _ h1
    | hash hh => simpa [Store.rpop, hg] using h1
    | set l => simpa [Store.rpop, hg] using h1

/-- The store returned by `llen` satisfies the invariant. -/
theorem inv_llen_snd (s : Store) (now : Nat) (k : String) (h : StoreInv s) :
    StoreInv (s.llen now k).2 := by
  have h1 : StoreInv (s.get now k).2 := inv_get_snd s now k h
  rcases hg : s.get now k with ⟨r, s1⟩
  rw [hg] at h1
  cases r with
  | none => simpa [Store.llen, hg] using h1
  | some v => cases v <;> simpa [Store.llen, hg] using h1

/-- The store returned by `lindex` satisfies the invariant. -/
theorem inv_lindex_snd (s : Store) (now : Nat) (k : String) (idx : Nat)
    (h : StoreInv s) : StoreInv (s.lindex now k idx).2 := by
  have h1 : StoreInv (s.get now k).2 := inv_get_snd s now k h
  rcases hg : s.get now k with ⟨r, s1⟩
  rw [hg] at h1
  cases r with
  | none => simpa [Store.lindex, hg] using h1
  | some v =>
    cases v with
    | list l =>
      by_cases hi : idx < l.length <;> simpa [Store.lindex, hg, hi] using h1
    | str c => simpa [Store.lindex, hg] using h1
    | hash hh => simpa [Store.lindex, hg] using h1
    | set l => simpa [Store.lindex, hg] using h1

/-- The store returned by `lset` satisfies the invariant. -/
theorem inv_lset_snd (s : Store) (now : Nat) (k : String) (idx : Nat) (v2 : String)
    (h : StoreInv s) : StoreInv (s.lset now k idx v2).2 := by
  have h1 : StoreInv (s.get now k).2 := inv_get_snd s now k h
  rcases hg : s.get now k with ⟨r, s1⟩
  rw [hg] at h1
  cases r with
  | none => simpa [Store.lset, hg] using h1
  | some v =>
    cases v with
    | list l =>
      by_cases hi : idx < l.length
      · simpa [Store.lset, hg, hi] using inv_set s1 k _ h1
      · simpa [Store.lset, hg, hi] using h1
    | str c => simpa [Store.lset, hg] using h1
    | hash hh => simpa [Store.lset, hg] using h1
    | set l => simpa [Store.lset, hg] using h1

/-- The store returned by `lrange` satisfies the invariant. -/
theorem inv_lrange_snd (s : Store) (now : Nat) (k : String) (a b : Nat)
    (h : StoreInv s) : StoreInv (s.lrange now k a b).2 := by
  have h1 : StoreInv (s.get now k).2 := inv_get_snd s now k h
  rcases hg : s.get now k with ⟨r, s1⟩
  rw [hg] at h1
  cases r with
  | none => simpa [Store.lrange, hg] using h1
  | some v =>
    cases v with
    | list l =>
      by_cases hc : a < b ∧ a < l.length ∧ b < l.length <;>
        simpa [Store.lrange, hg, hc] using h1
    | str c => simpa [Store.lrange, hg] using h1
    | hash hh => simpa [Store.lrange, hg] using h1
    | set l => simpa [Store.lrange, hg] using h1

/-- The store returned by `lrem` satisfies the invariant. -/
theorem inv_lrem_snd (s : Store) (now : Nat) (k : String) (count : Int) (v2 : String)
    (h : StoreInv s) : StoreInv (s.lrem now k count v2).2 := by
  have h1 : StoreInv (s.get now k).2 := inv_get_snd s now k h
  rcases hg : s.get now k with ⟨r, s1⟩
  rw [hg] at h1
  cases r with
  | none => simpa [Store.lrem, hg] using h1
  | some v =>
    cases v with
    | list l =>
      by_cases hp : count > 0
      · simpa [Store.lrem, hg, hp] using inv_set s1 k _ h1
      · by_cases hn : count < 0
        · simpa [Store.lrem, hg, hp, hn] using inv_set s1 k _ h1
        · simpa [Store.lrem, hg, hp, hn] using inv_set s1 k _ h1
    | str c => simpa [Store.lrem, hg] using h1
    | hash hh => simpa [Store.lrem, hg] using h1
    | set l => simpa [Store.lrem, hg] using h1

/-- The store returned by `hset` satisfies the invariant. -/
theorem inv_hset_snd (s : Store) (now : Nat) (k f v2 : String) (h : StoreInv s) :
    StoreInv (s.hset now k f v2).2 := by
  have h1 : StoreInv (s.get now k).2 := inv_get_snd s now k h
  rcases hg : s.get now k with ⟨r, s1⟩
  rw [hg] at h1
  simpa [Store.hset, hg] using inv_set s1 k _ h1

/-- The store returned by `hget` satisfies the invariant. -/
theorem inv_hget_snd (s : Store) (now : Nat) (k f : String) (h : StoreInv s) :
    StoreInv (s.hget now k f).2 := by
  have h1 : StoreInv (s.get now k).2 := inv_get_snd s now k h
  rcases hg : s.get now k with ⟨r, s1⟩
  rw [hg] at h1
  cases r with
  | none => simpa [Store.hget, hg] using h1
  | some v => cases v <;> simpa [Store.hget, hg] using h1

/-- The store returned by `hdel` satisfies the invariant. -/
theorem inv_hdel_snd (s : Store) (now : Nat) (k f : String) (h : StoreInv s) :
    StoreInv (s.hdel now k f).2 := by
  have h1 : StoreInv (s.get now k).2 := inv_get_snd s now k h
  rcases hg : s.get now k with ⟨r, s1⟩
  rw [hg] at h1
  cases r with
  | none => simpa [Store.hdel, hg] using h1
  | some v =>
    cases v with
    | hash hh => simpa [Store.hdel, hg] using inv_set s1 k _ h1
    | str c => simpa [Store.hdel, hg] using h1
    | list l => simpa [Store.hdel, hg] using h1
    | set l => simpa [Store.hdel, hg] using h1

/-- The store returned by `hlen` satisfies the invariant. -/
theorem inv_hlen_snd (s : Store) (now : Nat) (k : String) (h : StoreInv s) :
    StoreInv (s.hlen now k).2 := by
  have h1 : StoreInv (s.get now k).2 := inv_get_snd s now k h
  rcases hg : s.get now k with ⟨r, s1⟩
  rw [hg] at h1
  cases r with
  | none => simpa [Store.hlen, hg] using h1
  | some v => cases v <;> simpa [Store.hlen, hg] using h1

/-- The store returned by `hget_all` satisfies the invariant. -/
theorem inv_hgetAll_snd (s : Store) (now : Nat) (k : String) (h : StoreInv s) :
    StoreInv (s.hgetAll now k).2 := by
  have h1 : StoreInv (s.get now k).2 := inv_get_snd s now k h
  rcases hg : s.get now k with ⟨r, s1⟩
  rw [hg] at h1
  cases r with
  | none => simpa [Store.hgetAll, hg] using h1
  | some v => cases v <;> simpa [Store.hgetAll, hg] using h1

/-- The store returned by `hincr_by` satisfies the invariant. -/
theorem inv_hincrBy_snd (s : Store) (now : Nat) (k f : String) (d : Int)
    (h : StoreInv s) : StoreInv (s.hincrBy now k f d).2 := by
  have h1 : StoreInv (s.get now k).2 := inv_get_snd s now k h
  rcases hg : s.get now k with ⟨r, s1⟩
  rw [hg] at h1
  cases r with
  | none => simpa [Store.hincrBy, hg] using h1
  | some v =>
    cases v with
    | hash hh =>
      cases hf : assocGet hh f with
      | none => simpa [Store.hincrBy, hg, hf] using inv_set s1 k _ h1
      | some val =>
        cases hp : parseI64 val with
        | none => simpa [Store.hincrBy, hg, hf, hp] using h1
        | some n => simpa [Store.hincrBy, hg, hf, hp] using inv_set s1 k _ h1
    | str c => simpa [Store.hincrBy, hg] using h1
    | list l => simpa [Store.hincrBy, hg] using h1
    | set l => simpa [Store.hincrBy, hg] using h1

/-- C8: every Store operation preserves the invariant that each key in
the expiration mapping is also present in the value mapping. -/
theorem store_ops_preserve_invariant (s : Store) (h : StoreInv s)
    (k f v2 : String) (v : Value) (now dur idx : Nat) (d count : Int)
    (vs : List String) :
    StoreInv (s.set k v) ∧
    StoreInv (s.get now k).2 ∧
    StoreInv (s.del k).2 ∧
    StoreInv (s.expire now k dur).2 ∧
    StoreInv (s.ttl now k).2 ∧
    StoreInv (s.incrBy now k d).2 ∧
    StoreInv (s.lpush now k vs).2 ∧
    StoreInv (s.rpush now k vs).2 ∧
    StoreInv (s.lpop now k).2 ∧
    StoreInv (s.rpop now k).2 ∧
    StoreInv (s.llen now k).2 ∧
    StoreInv (s.lindex now k idx).2 ∧
    StoreInv (s.lset now k idx v2).2 ∧
    StoreInv (s.lrange now k idx dur).2 ∧
    StoreInv (s.lrem now k count v2).2 ∧
    StoreInv (s.hset now k f v2).2 ∧
    StoreInv (s.hget now k f).2 ∧
    StoreInv (s.hdel now k f).2 ∧
    StoreInv (s.hlen now k).2 ∧
    StoreInv (s.hgetAll now k).2 ∧
    StoreInv (s.hincrBy now k f d).2 :=
  ⟨inv_set s k v h, inv_get_snd s now k h, inv_del_snd s k h,
   inv_expire_snd s now k dur h, inv_ttl_snd s now k h,
   inv_incrBy_snd s now k d h, inv_lpush_snd s now k vs h,
   inv_rpush_snd s now k vs h, inv_lpop_snd s now k h, inv_rpop_snd s now k h,
   inv_llen_snd s now k h, inv_lindex_snd s now k idx h,
   inv_lset_snd s now k idx v2 h, inv_lrange_snd s now k idx dur h,
   inv_lrem_snd s now k count v2 h, inv_hset_snd s now k f v2 h,
   inv_hget_snd s now k f h, inv_hdel_snd s now k f h, inv_hlen_snd s now k h,
   inv_hgetAll_snd s now k h, inv_hincrBy_snd s now k f d h⟩

/-- C8, witnessed starting from the empty store (which satisfies the
invariant) for a `set` and a `hincr_by`. -/
theorem store_ops_preserve_invariant_witness :
    StoreInv (Store.empty.set "k" (Value.str "1")) ∧
    StoreInv (Store.empty.hincrBy 0 "k" "f" 2).2 := by
  have h0 : StoreInv Store.empty := by
    intro j hj
    simp [Store.empty] at hj
  obtain ⟨h1, _, _, _, _, _, _, _, _, _, _, _, _, _, _, _, _, _, _, _, h21⟩ :=
    store_ops_preserve_invariant Store.empty h0 "k" "f" "x" (Value.str "1") 0 0 0 2 2 ["a"]
  exact ⟨h1, h21⟩

/-- Storing through `set` always clears the key's expiration. -/
theorem set_expiry_self (s : Store) (k : String) (v : Value) :
    (s.set k v).expiry k = none := by
  simp [Store.set, mapRemove]

/-- Storing through `set` makes the key hold exactly the stored value. -/
theorem set_data_self (s : Store) (k : String) (v : Value) :
    (s.set k v).data k = some v := by
  simp [Store.set, mapInsert]

/-- C10: every list or hash mutation that reaches its store-back step
rewrites the key through `set`, which removes the key from the expiration
map — so the key has no TTL afterwards. `lpush`, `rpush` and `hset` always
store back; `lpop`/`rpop`/`lrem` do whenever the key holds a List
(including an empty one, which stays alive holding an empty List);
`lset` does when the index is in bounds; `hdel` whenever the key holds a
Hash; `hincrby` when the field is absent or numeric. -/
theorem mutations_clear_ttl (s : Store) (now : Nat) (k f v2 val : String)
    (vs : List String) (l : List String) (hh : List (String × String))
    (idx : Nat) (count d n : Int) :
    ((s.lpush now k vs).2.expiry k = none) ∧
    ((s.rpush now k vs).2.expiry k = none) ∧
    ((s.get now k).1 = some (Value.list l) → (s.lpop now k).2.expiry k = none) ∧
    ((s.get now k).1 = some (Value.list l) → (s.rpop now k).2.expiry k = none) ∧
    ((s.get now k).1 = some (Value.list l) → idx < l.length →
      (s.lset now k idx v2).2.expiry k = none) ∧
    ((s.get now k).1 = some (Value.list l) →
      (s.lrem now k count v2).2.expiry k = none) ∧
    ((s.hset now k f v2).2.expiry k = none) ∧
    ((s.get now k).1 = some (Value.hash hh) → (s.hdel now k f).2.expiry k = none) ∧
    ((s.get now k).1 = some (Value.hash hh) → assocGet hh f = none →
      (s.hincrBy now k f d).2.expiry k = none) ∧
    ((s.get now k).1 = some (Value.hash hh) → assocGet hh f = some val →
      parseI64 val = some n → (s.hincrBy now k f d).2.expiry k = none) ∧
    ((s.get now k).1 = some (Value.list []) →
      (s.lpop now k).2.data k = some (Value.list []) ∧
      (s.rpop now k).2.data k = some (Value.list [])) := by
  rcases hg : s.get now k with ⟨r, s1⟩
  refine ⟨?_, ?_, ?_, ?_, ?_, ?_, ?_, ?_, ?_, ?_, ?_⟩
  · simp only [Store.lpush, hg]
    exact set_expiry_self s1 k _
  · simp only [Store.rpush, hg]
    exact set_expiry_self s1 k _
  · intro hr
    simp only at hr
    subst hr
    simp only [Store.lpop, hg]
    exact set_expiry_self s1 k _
  · intro hr
    simp only at hr
    subst hr
    simp only [Store.rpop, hg]
    exact set_expiry_self s1 k _
  · intro hr hi
    simp only at hr
    subst hr
    simp only [Store.lset, hg, hi, if_true]
    exact set_expiry_self s1 k _
  · intro hr
    simp only at hr
    subst hr
    by_cases hp : count > 0
    · simp only [Store.lrem, hg, hp, if_true]
      exact set_expiry_self s1 k _
    · by_cases hn : count < 0
      · simp only [Store.lrem, hg]
        rw [if_neg hp, if_pos hn]
        exact set_expiry_self s1 k _
      · simp only [Store.lrem, hg]
        rw [if_neg hp, if_neg hn]
        exact set_expiry_self s1 k _
  · simp only [Store.hset, hg]
    exact set_expiry_self s1 k _
  · intro hr
    simp only at hr
    subst hr
    simp only [Store.hdel, hg]
    exact set_expiry_self s1 k _
  · intro hr hf
    simp only at hr
    subst hr
    simp only [Store.hincrBy, hg, hf]
    exact set_expiry_self s1 k _
  · intro hr hf hp
    simp only at hr
    subst hr
    simp only [Store.hincrBy, hg, hf, hp]
    exact set_expiry_self s1 k _
  · intro hr
    simp only at hr
    subst hr
    constructor
    · simp only [Store.lpop, hg, List.head?, List.tail]
      exact set_data_self s1 k _
    · simp only [Store.rpop, hg, List.getLast?, List.dropLast]
      exact set_data_self s1 k _

/-- C10, witnessed on a key that holds a one-element list under an active
TTL (`lpush` clears it) and on a key holding an empty list under an
active TTL (`lpop` keeps the key alive with no TTL). -/
theorem mutations_clear_ttl_witness :
    ((((Store.empty.set "k" (Value.list ["a"])).expire 0 "k" 100).2.lpush 1 "k"
        ["b"]).2.expiry "k" = none) ∧
    ((((Store.empty.set "k" (Value.list [])).expire 0 "k" 100).2.lpop 1 "k").2.expiry "k"
        = none) ∧
    ((((Store.empty.set "k" (Value.list [])).expire 0 "k" 100).2.lpop 1 "k").2.data "k"
        = some (Value.list [])) := by
  have h1 := mutations_clear_ttl
    ((Store.empty.set "k" (Value.list ["a"])).expire 0 "k" 100).2 1 "k" "f" "x" "y"
    ["b"] ["a"] [] 0 0 0 0
  have h2 := mutations_clear_ttl
    ((Store.empty.set "k" (Value.list [])).expire 0 "k" 100).2 1 "k" "f" "x" "y"
    ["b"] [] [] 0 0 0 0
  refine ⟨h1.1, ?_, ?_⟩
  · exact h2.2.2.1 (by decide)
  · exact (h2.2.2.2.2.2.2.2.2.2.2 (by decide)).1

/-- Occurrence counting is invariant under reversal. -/
theorem countOcc_reverse (v : String) (l : List String) :
    countOcc v l.reverse = countOcc v l :=
  ((l.reverse_perm).filter (fun x => decide (x = v))).length_eq

/-- When the first occurrence cannot be removed, there is no occurrence. -/
theorem removeFirstOcc_none (v : String) :
    ∀ l, removeFirstOcc v l = none → countOcc v l = 0 := by
  intro l
  induction l with
  | nil => intro _; rfl
  | cons x xs ih =>
    intro h
    by_cases hx : x = v
    · simp [removeFirstOcc, hx] at h
    · simp [removeFirstOcc, hx, Option.map_eq_none'] at h
      simp [countOcc, hx]
      have := ih h
      simpa [countOcc] using this

/-- Removing up to `n` occurrences from an occurrence-free list is the
identity. -/
theorem specRemoveFirstN_of_none (v : String) :
    ∀ (l : List String) (n : Nat), countOcc v l = 0 → specRemoveFirstN v n l = l := by
  intro l
  induction l with
  | nil => intro n _; cases n <;> rfl
  | cons x xs ih =>
    intro n h
    have hx : ¬ (x = v) := by
      intro hx
      simp [countOcc, hx] at h
    have hxs : countOcc v xs = 0 := by
      simpa [countOcc, hx] using h
    cases n with
    | zero => rfl
    | succ m => simp [specRemoveFirstN, hx, ih _ hxs]

/-- Removing the first occurrence decreases the count by one and commutes
with the specification-level removal. -/
theorem removeFirstOcc_some (v : String) :
    ∀ l l', removeFirstOcc v l = some l' →
      countOcc v l = countOcc v l' + 1 ∧
      ∀ n, specRemoveFirstN v (n + 1) l = specRemoveFirstN v n l' := by
  intro l
  induction l with
  | nil => intro l' h; simp [removeFirstOcc] at h
  | cons x xs ih =>
    intro l' h
    by_cases hx : x = v
    · simp [removeFirstOcc, hx] at h
      subst h
      constructor
      · simp [countOcc, hx]
      · intro n
        simp [specRemoveFirstN, hx]
    · simp [removeFirstOcc, hx] at h
      rcases h with ⟨xs', hxs', rfl⟩
      obtain ⟨hc, hs⟩ := ih xs' hxs'
      constructor
      · simpa [countOcc, hx] using hc
      · intro n
        have hstep : specRemoveFirstN v (n + 1) (x :: xs)
            = x :: specRemoveFirstN v (n + 1) xs := by
          simp [specRemoveFirstN, hx]
        rw [hstep, hs n]
        cases n with
        | zero => simp [specRemoveFirstN]
        | succ m => simp [specRemoveFirstN, hx]

/-- The `count > 0` loop of `lrem` removes exactly the first
`min n (occurrences)` occurrences and reports that number. -/
theorem lremFrontLoop_spec (v : String) :
    ∀ (n : Nat) (l : List String),
      lremFrontLoop v n l = (specRemoveFirstN v n l, min n (countOcc v l)) := by
  intro n
  induction n with
  | zero => intro l; simp [lremFrontLoop, specRemoveFirstN]
  | succ m ih =>
    intro l
    cases hro : removeFirstOcc v l with
    | none =>
      have h0 := removeFirstOcc_none v l hro
      simp [lremFrontLoop, hro, specRemoveFirstN_of_none v l _ h0, h0]
    | some l1 =>
      obtain ⟨hc, hs⟩ := removeFirstOcc_some v l l1 hro
      have hmin : min m (countOcc v l1) + 1 = min (m + 1) (countOcc v l) := by
        omega
      simp [lremFrontLoop, hro, ih l1, hs m, hmin]

/-- Splitting `removeFirstOcc` across an append. -/
theorem removeFirstOcc_append (v : String) :
    ∀ a b : List String,
      removeFirstOcc v (a ++ b) =
        (match removeFirstOcc v a with
         | some a1 => some (a1 ++ b)
         | none => (removeFirstOcc v b).map (a ++ ·)) := by
  intro a
  induction a with
  | nil =>
    intro b
    cases h : removeFirstOcc v b <;> simp [removeFirstOcc, h]
  | cons x xs ih =>
    intro b
    by_cases hx : x = v
    · simp [removeFirstOcc, hx]
    · cases h : removeFirstOcc v xs with
      | some xs1 => simp [removeFirstOcc, hx, ih b, h]
      | none =>
        cases hb : removeFirstOcc v b with
        | none => simp [removeFirstOcc, hx, ih b, h, hb]
        | some r => simp [removeFirstOcc, hx, ih b, h, hb]

/-- Removing the last occurrence is removing the first occurrence of the
reversed list, reversed back. -/
theorem removeLastOcc_eq (v : String) :
    ∀ l, removeLastOcc v l = (removeFirstOcc v l.reverse).map List.reverse := by
  intro l
  induction l with
  | nil => rfl
  | cons x xs ih =>
    rw [List.reverse_cons, removeFirstOcc_append]
    cases h : removeFirstOcc v xs.reverse with
    | some r =>
      have : removeLastOcc v xs = some r.reverse := by
        rw [ih, h]; rfl
      simp [removeLastOcc, this]
    | none =>
      have hnone : removeLastOcc v xs = none := by
        rw [ih, h]; rfl
      by_cases hx : x = v
      · simp [removeLastOcc, hnone, removeFirstOcc, hx]
      · simp [removeLastOcc, hnone, removeFirstOcc, hx]

/-- The backward loop is the forward loop on the reversed list. -/
theorem lremBackLoop_eq (v : String) :
    ∀ (n : Nat) (l : List String),
      lremBackLoop v n l =
        ((lremFrontLoop v n l.reverse).1.reverse, (lremFrontLoop v n l.reverse).2) := by
  intro n
  induction n with
  | zero => intro l; simp [lremBackLoop, lremFrontLoop]
  | succ m ih =>
    intro l
    cases hro : removeLastOcc v l with
    | none =>
      have hf : removeFirstOcc v l.reverse = none := by
        rw [removeLastOcc_eq] at hro
        exact Option.map_eq_none'.mp hro
      simp [lremBackLoop, hro, lremFrontLoop, hf]
    | some l1 =>
      have hf : ∃ r, removeFirstOcc v l.reverse = some r ∧ l1 = r.reverse := by
        rw [removeLastOcc_eq] at hro
        rcases hmap : removeFirstOcc v l.reverse with _ | r
        · rw [hmap] at hro; simp at hro
        · rw [hmap] at hro
          simp at hro
          exact ⟨r, rfl, hro.symm⟩
      rcases hf with ⟨r, hr, rfl⟩
      have hrev : r.reverse.reverse = r := by simp
      simp [lremBackLoop, hro, lremFrontLoop, hr, ih, hrev]

/-- The `count < 0` loop of `lrem` removes exactly the last
`min n (occurrences)` occurrences and reports that number. -/
theorem lremBackLoop_spec (v : String) (n : Nat) (l : List String) :
    lremBackLoop v n l = (specRemoveLastN v n l, min n (countOcc v l)) := by
  rw [lremBackLoop_eq, lremFrontLoop_spec, specRemoveLastN, countOcc_reverse]

/-- C7: on a live, unexpired key holding a List, `lrem(k, count, v)`
removes the first `count` occurrences scanning from the front when
`count > 0`, the last `|count|` occurrences scanning from the back when
`count < 0`, and every occurrence when `count = 0`; in each case it
returns the number of elements removed and stores the remainder back. -/
theorem lrem_characterization (s : Store) (now : Nat) (k v2 : String)
    (l : List String) (count : Int)
    (hd : s.data k = some (Value.list l))
    (he : ∀ t, s.expiry k = some t → now ≤ t) :
    (0 < count →
      s.lrem now k count v2 =
        (min count.toNat (countOcc v2 l),
         s.set k (Value.list (specRemoveFirstN v2 count.toNat l)))) ∧
    (count < 0 →
      s.lrem now k count v2 =
        (min (-count).toNat (countOcc v2 l),
         s.set k (Value.list (specRemoveLastN v2 (-count).toNat l)))) ∧
    (count = 0 →
      s.lrem now k count v2 =
        (countOcc v2 l, s.set k (Value.list (l.filter (fun x => x ≠ v2))))) := by
  have hg := get_of_live s now k _ hd he
  refine ⟨?_, ?_, ?_⟩
  · intro hp
    simp [Store.lrem, hg, hp, lremFrontLoop_spec]
  · intro hn
    have hp : ¬ (count > 0) := by omega
    simp [Store.lrem, hg, hp, hn, lremBackLoop_spec]
  · intro h0
    subst h0
    simp [Store.lrem, hg, countOcc]

/-- C7, witnessed on the list `["x","a","x","x"]`: `lrem 2` removes the
first two `"x"`, `lrem (-1)` removes the last `"x"`, and `lrem 0` removes
all three and returns 3. -/
theorem lrem_characterization_witness :
    (((Store.empty.set "k" (Value.list ["x", "a", "x", "x"])).lrem 0 "k" 2 "x").1
       = 2) ∧
    (((Store.empty.set "k" (Value.list ["x", "a", "x", "x"])).lrem 0 "k" (-1) "x").2.data "k"
       = some (Value.list ["x", "a", "x"])) ∧
    (((Store.empty.set "k" (Value.list ["x", "a", "x", "x"])).lrem 0 "k" 0 "x").1
       = 3) := by
  have he : ∀ t, (Store.empty.set "k" (Value.list ["x", "a", "x", "x"])).expiry "k"
      = some t → (0 : Nat) ≤ t := by
    intro t h
    simp [Store.set, Store.empty, mapRemove] at h
  refine ⟨?_, ?_, ?_⟩
  · have h := (lrem_characterization _ 0 "k" "x" ["x", "a", "x", "x"] 2
      (by decide) he).1 (by decide)
    rw [h]
    decide
  · have h := (lrem_characterization _ 0 "k" "x" ["x", "a", "x", "x"] (-1)
      (by decide) he).2.1 (by decide)
    rw [h, set_data_self]
    decide
  · have h := (lrem_characterization _ 0 "k" "x" ["x", "a", "x", "x"] 0
      (by decide) he).2.2 rfl
    rw [h]
    decide

/-- Every table reply starts with one of the five protocol marker
characters. -/
theorem isTableReply_headChar (r : String) (h : isTableReply r) :
    r.data.head? = some '+' ∨ r.data.head? = some '-' ∨
    r.data.head? = some ':' ∨ r.data.head? = some '$' ∨
    r.data.head? = some '*' := by
  rcases h with h | h | ⟨m, h⟩ | ⟨n, h⟩ | ⟨d, h⟩ | h | ⟨items, h⟩
  · subst h; left; rfl
  · subst h; left; rfl
  · subst h
    right; left
    rw [String.data_append, String.data_append]
    rfl
  · subst h
    right; right; left
    rw [String.data_append, String.data_append]
    rfl
  · subst h
    right; right; right; left
    rw [bulkEnc, String.data_append, String.data_append, String.data_append,
        String.data_append]
    rfl
  · subst h
    right; right; right; left
    rfl
  · subst h
    right; right; right; right
    rw [String.data_append, String.data_append]
    rfl

/-- C3 counterexample: the reply of `LPUSH k a` on the empty store is the
bare line `1\r\n` — the integer result lacks the `:` prefix, so the reply
matches no row of the reply-encoding table. -/
theorem lpush_reply_not_table :
    ((Command.LPush "k" ["a"]).execute Store.empty 0).1 = "1\r\n" ∧
    ¬ isTableReply ((Command.LPush "k" ["a"]).execute Store.empty 0).1 := by
  have h1 : ((Command.LPush "k" ["a"]).execute Store.empty 0).1 = "1\r\n" := by
    decide
  refine ⟨h1, ?_⟩
  rw [h1]
  intro h
  rcases isTableReply_headChar _ h with h2 | h2 | h2 | h2 | h2 <;>
    exact absurd h2 (by decide)

/-- C3 amended: every reply of `Command::execute` is one of the table's
wire encodings, except that (a) the successful integer replies of
INCRBY/DECRBY/INCR/DECR/LPUSH/RPUSH/LLEN are the bare line `<n>\r\n`
without the `:` prefix, (b) the successful value replies of
LPOP/RPOP/LINDEX are the bare line `<v>\r\n` rather than bulk strings,
and (c) GET of a non-Text value emits `$<len>\r\n<data>\r\n` where
`<len>` is the value's element count, not the byte length of `<data>`. -/
theorem execute_reply_shapes (c : Command) (s : Store) (now : Nat) :
    isTableReply (c.execute s now).1 ∨
    (isBareIntCmd c ∧ ∃ n : Int, (c.execute s now).1 = intStr n ++ "\r\n") ∨
    (isBareValCmd c ∧ ∃ w : String, (c.execute s now).1 = w ++ "\r\n") ∨
    (isGetCmd c ∧ ∃ v : Value, v.isString = false ∧
      (c.execute s now).1 = "$" ++ toString v.len ++ "\r\n" ++ v.display ++ "\r\n") := by
  cases c with
  | Ping => exact Or.inl (Or.inr (Or.inl rfl))
  | Quit => exact Or.inl (Or.inl rfl)
  | Set k v => exact Or.inl (Or.inl rfl)
  | Get k =>
    rcases hg : s.get now k with ⟨r, s1⟩
    simp only [Command.execute, hg]
    cases r with
    | none => exact Or.inl (Or.inr (Or.inr (Or.inr (Or.inr (Or.inr (Or.inl rfl))))))
    | some v =>
      cases v with
      | str c2 =>
        exact Or.inl (Or.inr (Or.inr (Or.inr (Or.inr (Or.inl ⟨c2, rfl⟩)))))
      | list l =>
        exact Or.inr (Or.inr (Or.inr ⟨trivial, Value.list l, rfl, rfl⟩))
      | hash hh =>
        exact Or.inr (Or.inr (Or.inr ⟨trivial, Value.hash hh, rfl, rfl⟩))
      | set l =>
        exact Or.inr (Or.inr (Or.inr ⟨trivial, Value.set l, rfl, rfl⟩))
  | Del k =>
    rcases hd : s.del k with ⟨b, s1⟩
    simp only [Command.execute, hd]
    cases b with
    | true => exact Or.inl (Or.inr (Or.inr (Or.inr (Or.inl ⟨1, by decide⟩))))
    | false => exact Or.inl (Or.inr (Or.inr (Or.inr (Or.inl ⟨0, by decide⟩))))
  | Expire k t =>
    rcases hd : s.expire now k t with ⟨b, s1⟩
    simp only [Command.execute, hd]
    cases b with
    | true => exact Or.inl (Or.inr (Or.inr (Or.inr (Or.inl ⟨1, by decide⟩))))
    | false => exact Or.inl (Or.inr (Or.inr (Or.inr (Or.inl ⟨0, by decide⟩))))
  | TTL k =>
    rcases ht : s.ttl now k with ⟨r, s1⟩
    simp only [Command.execute, ht]
    cases r with
    | some n => exact Or.inl (Or.inr (Or.inr (Or.inr (Or.inl ⟨n, rfl⟩))))
    | none => exact Or.inl (Or.inr (Or.inr (Or.inr (Or.inl ⟨0, rfl⟩))))
  | Exists k =>
    rcases hg : s.get now k with ⟨r, s1⟩
    simp only [Command.execute, hg]
    cases r with
    | some v =>
      exact Or.inl (Or.inr (Or.inr (Or.inr (Or.inl
        ⟨1, (by decide : (":1\r\n" : String) = ":" ++ intStr 1 ++ "\r\n")⟩))))
    | none =>
      exact Or.inl (Or.inr (Or.inr (Or.inr (Or.inl
        ⟨0, (by decide : (":0\r\n" : String) = ":" ++ intStr 0 ++ "\r\n")⟩))))
  | Strlen k =>
    rcases hg : s.get now k with ⟨r, s1⟩
    simp only [Command.execute, hg]
    cases r with
    | some v =>
      exact Or.inl (Or.inr (Or.inr (Or.inr (Or.inl
        ⟨Int.ofNat v.len, by rw [intStr_ofNat]⟩))))
    | none => exact Or.inl (Or.inr (Or.inr (Or.inr (Or.inr (Or.inr (Or.inl rfl))))))
  | IncrBy k d =>
    rcases hi : s.incrBy now k d with ⟨r, s1⟩
    simp only [Command.execute, hi]
    cases r with
    | some v => exact Or.inr (Or.inl ⟨trivial, v, rfl⟩)
    | none =>
      exact Or.inl (Or.inr (Or.inr (Or.inl
        ⟨"value is not an integer or out of range",
         (by decide : ("-ERR value is not an integer or out of range\r\n" : String)
            = "-ERR " ++ "value is not an integer or out of range" ++ "\r\n")⟩)))
  | DecrBy k d =>
    rcases hi : s.incrBy now k (-d) with ⟨r, s1⟩
    simp only [Command.execute, hi]
    cases r with
    | some v => exact Or.inr (Or.inl ⟨trivial, v, rfl⟩)
    | none =>
      exact Or.inl (Or.inr (Or.inr (Or.inl
        ⟨"value is not an integer or out of range",
         (by decide : ("-ERR value is not an integer or out of range\r\n" : String)
            = "-ERR " ++ "value is not an integer or out of range" ++ "\r\n")⟩)))
  | Incr k =>
    rcases hi : s.incrBy now k 1 with ⟨r, s1⟩
    simp only [Command.execute, hi]
    cases r with
    | some v => exact Or.inr (Or.inl ⟨trivial, v, rfl⟩)
    | none =>
      exact Or.inl (Or.inr (Or.inr (Or.inl
        ⟨"value is not an integer or out of range",
         (by decide : ("-ERR value is not an integer or out of range\r\n" : String)
            = "-ERR " ++ "value is not an integer or out of range" ++ "\r\n")⟩)))
  | Decr k =>
    rcases hi : s.incrBy now k (-1) with ⟨r, s1⟩
    simp only [Command.execute, hi]
    cases r with
    | some v => exact Or.inr (Or.inl ⟨trivial, v, rfl⟩)
    | none =>
      exact Or.inl (Or.inr (Or.inr (Or.inl
        ⟨"value is not an integer or out of range",
         (by decide : ("-ERR value is not an integer or out of range\r\n" : String)
            = "-ERR " ++ "value is not an integer or out of range" ++ "\r\n")⟩)))
  | LPush k vs =>
    rcases hp : s.lpush now k vs with ⟨n, s1⟩
    simp only [Command.execute, hp]
    exact Or.inr (Or.inl ⟨trivial, Int.ofNat n, by rw [intStr_ofNat]⟩)
  | RPush k vs =>
    rcases hp : s.rpush now k vs with ⟨n, s1⟩
    simp only [Command.execute, hp]
    exact Or.inr (Or.inl ⟨trivial, Int.ofNat n, by rw [intStr_ofNat]⟩)
  | LPop k =>
    rcases hp : s.lpop now k with ⟨r, s1⟩
    simp only [Command.execute, hp]
    cases r with
    | some v => exact Or.inr (Or.inr (Or.inl ⟨trivial, v, rfl⟩))
    | none => exact Or.inl (Or.inr (Or.inr (Or.inr (Or.inr (Or.inr (Or.inl rfl))))))
  | RPop k =>
    rcases hp : s.rpop now k with ⟨r, s1⟩
    simp only [Command.execute, hp]
    cases r with
    | some v => exact Or.inr (Or.inr (Or.inl ⟨trivial, v, rfl⟩))
    | none => exact Or.inl (Or.inr (Or.inr (Or.inr (Or.inr (Or.inr (Or.inl rfl))))))
  | LRange k a b =>
    rcases hr : s.lrange now k a b with ⟨r, s1⟩
    simp only [Command.execute, hr]
    cases r with
    | some res =>
      exact Or.inl (Or.inr (Or.inr (Or.inr (Or.inr (Or.inr (Or.inr ⟨res, rfl⟩))))))
    | none =>
      exact Or.inl (Or.inr (Or.inr (Or.inl
        ⟨"index out of range",
         (by decide : ("-ERR index out of range\r\n" : String)
            = "-ERR " ++ "index out of range" ++ "\r\n")⟩)))
  | LRem k count v =>
    rcases hr : s.lrem now k count v with ⟨n, s1⟩
    simp only [Command.execute, hr]
    exact Or.inl (Or.inr (Or.inr (Or.inr (Or.inl
      ⟨Int.ofNat n, by rw [intStr_ofNat]⟩))))
  | LIndex k i =>
    rcases hr : s.lindex now k i with ⟨r, s1⟩
    simp only [Command.execute, hr]
    cases r with
    | some v => exact Or.inr (Or.inr (Or.inl ⟨trivial, v, rfl⟩))
    | none =>
      exact Or.inl (Or.inr (Or.inr (Or.inl
        ⟨"index out of range",
         (by decide : ("-ERR index out of range\r\n" : String)
            = "-ERR " ++ "index out of range" ++ "\r\n")⟩)))
  | LSet k i v =>
    rcases hr : s.lset now k i v with ⟨b, s1⟩
    simp only [Command.execute, hr]
    cases b with
    | true => exact Or.inl (Or.inl rfl)
    | false =>
      exact Or.inl (Or.inr (Or.inr (Or.inl
        ⟨"index out of range",
         (by decide : ("-ERR index out of range\r\n" : String)
            = "-ERR " ++ "index out of range" ++ "\r\n")⟩)))
  | LLen k =>
    rcases hr : s.llen now k with ⟨r, s1⟩
    simp only [Command.execute, hr]
    cases r with
    | some n => exact Or.inr (Or.inl ⟨trivial, Int.ofNat n, by rw [intStr_ofNat]⟩)
    | none => exact Or.inl (Or.inr (Or.inr (Or.inr (Or.inr (Or.inr (Or.inl rfl))))))
